import Mathlib

/-!
Shallow embedding of `src/app/MobileRT/Utils/Utils.cpp` (namespace `MobileRT`).

Modelling conventions:
* C++ `float` values are modelled as exact rationals (`ℚ`).
* C++ `std::uint32_t` arithmetic is modelled as `Nat` with an explicit
  `% 4294967296` (= 2^32) after every operation that can wrap.
* C++ `std::int32_t` values are modelled as `Int`; the C++ `%` operator on
  signed integers truncates towards zero, which is `Int.tmod`.
* `std::sqrt` is modelled by `sqrtQ`, a computable rational square root that
  is exact on rationals that are squares of rationals (the only values the
  proved theorems evaluate it at are 0 and 1, where it is exact).
* The fallible operations (C++ division/modulo by zero is undefined
  behaviour) additionally get a checked variant returning `Option`.
-/

namespace MobileRT

/-- A 3-component vector of rationals, modelling `::glm::vec3`. -/
structure Vec3 where
  x : ℚ
  y : ℚ
  z : ℚ
deriving DecidableEq, Repr

/-- `::glm::dot` for 3-component vectors. -/
def dot (a b : Vec3) : ℚ :=
  a.x * b.x + a.y * b.y + a.z * b.z

/-- `::glm::clamp(x, minVal, maxVal)`, which GLM documents and implements as
`min(max(x, minVal), maxVal)`.  Note the argument order: the value being
clamped comes FIRST. -/
def glmClamp (x minVal maxVal : ℚ) : ℚ :=
  min (max x minVal) maxVal

/-- Computable rational square root modelling `::std::sqrt`: exact whenever the
argument is the square of a rational (in lowest terms `a^2/b^2`, we get
`Nat.sqrt (a^2 * b^2) / b^2 = a*b/b^2 = a/b`). -/
def sqrtQ (q : ℚ) : ℚ :=
  (Nat.sqrt (q.num.toNat * q.den) : ℚ) / (q.den : ℚ)

/-- `Utils.cpp:24` — `roundDownToMultipleOf(value, multiple)`.
`value % multiple` on C++ `std::int32_t` truncates towards zero (`Int.tmod`).
No `std::int32_t` overflow is reachable: when `rest > 1` we have `value > 1`
and `0 < rest ≤ value`, so `value - rest` stays in range. -/
def roundDownToMultipleOf (value multiple : Int) : Int :=
  let rest := Int.tmod value multiple
  let res := if rest > 1 then value - rest else value
  res

/-- C++ `%` on `std::int32_t` as a fallible operation: division by zero is
undefined behaviour, modelled as `none`. -/
def tmodChecked (a b : Int) : Option Int :=
  if b = 0 then none else some (Int.tmod a b)

/-- `roundDownToMultipleOf` with the embedded modulo made fallible, exposing
the division-by-zero error branch. -/
def roundDownToMultipleOfChecked (value multiple : Int) : Option Int :=
  (tmodChecked value multiple).map (fun rest => if rest > 1 then value - rest else value)

/-- Loop of `Utils.cpp:41` — `haltonSequence`.  The C++ `while (index > 0)`
loop is embedded with an explicit fuel parameter counting the maximal number
of iterations still allowed; since for `base ≥ 2` the index strictly
decreases on every iteration, fuel `index` is always enough (proved below in
`halton_termination`).  Per iteration: `fraction /= base`,
`nextValue += fraction * (index % base)`, `index = index / base`
(integer floor division, as in the source where `index / base` is already
`uint32` division). -/
def haltonAux : Nat → Nat → Nat → ℚ → ℚ → ℚ
  | 0, _, _, _, nextValue => nextValue
  | fuel + 1, index, base, fraction, nextValue =>
    if index = 0 then nextValue
    else
      haltonAux fuel (index / base) base (fraction / (base : ℚ))
        (nextValue + fraction / (base : ℚ) * ((index % base : Nat) : ℚ))

/-- `Utils.cpp:41` — `haltonSequence(index, base)`. -/
def haltonSequence (index base : Nat) : ℚ :=
  haltonAux index index base 1 0

/-- Modelled from the spec: the process-wide constant tolerance `Epsilon`
declared in `Constants.hpp`, which is not among the provided sources.  The
spec fixes no numeric value, only that it is a single small positive
tolerance used by all equality comparisons; we pick `10⁻⁶`.  The theorems
below depend only on `0 < Epsilon`. -/
def Epsilon : ℚ := 1 / 1000000

/-- `Utils.cpp:134` — `equal(a, b)`: true iff `|a - b| < Epsilon`. -/
def equal (a b : ℚ) : Bool :=
  let absValue := |a - b|
  let res := absValue < Epsilon
  res

/-- `Utils.cpp:190` — `normalize(color)` for `::glm::vec3`. -/
def normalize (color : Vec3) : Vec3 :=
  let m := max (max color.x color.y) color.z
  if m > 1 then ⟨color.x / m, color.y / m, color.z / m⟩ else color

/-- `Utils.cpp:208` — the first statement of `fresnel`:
`float cosi {::glm::clamp(-1.0F, 1.0F, ::glm::dot(I, N))}`.
With GLM's argument order `clamp(x, minVal, maxVal)` this is
`min(max(-1, 1), dot(I, N)) = min(1, dot(I, N))`. -/
def fresnelCosi (I N : Vec3) : ℚ :=
  glmClamp (-1) 1 (dot I N)

/-- What the spec says the first step of `fresnel` computes:
`cosi = clamp(dot(I, N), -1, 1) = min(1, max(-1, dot(I, N)))`.
Kept separate from `fresnelCosi` (the code's value) for comparison. -/
def fresnelCosiSpec (I N : Vec3) : ℚ :=
  min 1 (max (-1) (dot I N))

/-- `Utils.cpp:207` — `fresnel(I, N, ior)`. -/
def fresnel (I N : Vec3) (ior : ℚ) : ℚ :=
  let cosi := fresnelCosi I N
  let etas := if cosi > 0 then (ior, (1 : ℚ)) else ((1 : ℚ), ior)
  let etai := etas.1
  let etat := etas.2
  let sint := etai / etat * sqrtQ (max 0 (1 - cosi * cosi))
  if sint ≥ 1 then 1
  else
    let cost := sqrtQ (max 0 (1 - sint * sint))
    let cosiAbs := |cosi|
    let Rs := ((etat * cosiAbs) - (etai * cost)) / ((etat * cosiAbs) + (etai * cost))
    let Rp := ((etai * cosiAbs) - (etat * cost)) / ((etai * cosiAbs) + (etat * cost))
    (Rs * Rs + Rp * Rp) / 2

/-- `static_cast<::std::uint32_t>` applied to a C++ `std::int32_t`, which
reinterprets modulo 2^32. -/
def toUInt32 (i : Int) : Nat :=
  (i % 4294967296).toNat

/-- `Utils.cpp:64` — `incrementalAvg(sample, avg, numSample)`.  All `uint32`
operations wrap modulo 2^32: `numSampleUnsigned - 1U` is modelled as
`(numSampleUnsigned + 2^32 - 1) % 2^32` and the per-channel numerator is
reduced `% 2^32` before the `uint32` division.  The C++
`static_cast<std::uint32_t>(sample[i] * 255U)` truncates towards zero, which
for the nonnegative channels the renderer supplies is `Int.toNat ∘ Int.floor`
(negative channels are undefined behaviour in the source).  The result is the
returned 32-bit word (the final `static_cast<std::int32_t>` only
reinterprets the bit pattern). -/
def incrementalAvg (sample : Vec3) (avg numSample : Int) : Nat :=
  let avgUnsigned := toUInt32 avg
  let numSampleUnsigned := toUInt32 numSample
  let lastRed := avgUnsigned &&& 255
  let lastGreen := (avgUnsigned >>> 8) &&& 255
  let lastBlue := (avgUnsigned >>> 16) &&& 255
  let samplerRed := (⌊sample.x * 255⌋).toNat % 4294967296
  let samplerGreen := (⌊sample.y * 255⌋).toNat % 4294967296
  let samplerBlue := (⌊sample.z * 255⌋).toNat % 4294967296
  let nm1 := (numSampleUnsigned + 4294967296 - 1) % 4294967296
  let currentRed := (nm1 * lastRed + samplerRed) % 4294967296 / numSampleUnsigned
  let currentGreen := (nm1 * lastGreen + samplerGreen) % 4294967296 / numSampleUnsigned
  let currentBlue := (nm1 * lastBlue + samplerBlue) % 4294967296 / numSampleUnsigned
  let retR := min currentRed 255
  let retG := min currentGreen 255
  let retB := min currentBlue 255
  let res := 4278190080 ||| (retB <<< 16) ||| (retG <<< 8) ||| retR
  res

/-- Modelled from the spec: the error descriptor returned by
`getErrorCode()` (declared in `ErrorCode.hpp`, not among the provided
sources): a record with a human-readable code text and a description. -/
structure ErrorType where
  codeText : String
  description : String

/-- Platform value of `EWOULDBLOCK` on the Linux/Android targets (= `EAGAIN`
= 11), one of the two codes `checkSystemError` whitelists. -/
def EWOULDBLOCK : Int := 11

/-- Platform value of `EINVAL` on the Linux/Android targets (= 22), the other
whitelisted code. -/
def EINVAL : Int := 22

/-- `Utils.cpp:238` — `checkSystemError(message)`.  The process-wide `errno`
is made an explicit input, and the result is the pair of the `errno` value
after the call together with `some thrownMessage` when the function throws
`std::runtime_error` (`none` when it returns normally).  The external
`getErrorCode()` result and the `::std::strerror(errno)` text are abstract
inputs.  Logging and `setlocale` touch no modelled state. -/
def checkSystemError (errnoVal : Int) (currentError : ErrorType)
    (strerrorText : String) (message : String) : Int × Option String :=
  if errnoVal ≠ 0 ∧ errnoVal ≠ EWOULDBLOCK ∧ errnoVal ≠ EINVAL then
    let errorMessage := message ++ "\n" ++ currentError.codeText ++ "\n" ++
      currentError.description ++ "\n" ++ "errno (" ++ toString errnoVal ++ "): " ++
      strerrorText
    (0, some errorMessage)
  else
    (errnoVal, none)

/-! ## Theorems -/

/-- C1: the claim says the first step of `fresnel` computes
`cosi = min(1, max(-1, dot(I, N)))`.  The source calls
`::glm::clamp(-1.0F, 1.0F, ::glm::dot(I, N))`, i.e. passes the dot product as
GLM's `maxVal` argument, so the value actually used is `min(1, dot(I, N))`:
at `I = (0,0,-2)`, `N = (0,0,1)` (dot = -2) the code keeps `cosi = -2` while
the claimed clamp would give `-1`. -/
theorem fresnel_cosi_bug :
    fresnelCosi ⟨0, 0, -2⟩ ⟨0, 0, 1⟩ = -2 ∧
    fresnelCosiSpec ⟨0, 0, -2⟩ ⟨0, 0, 1⟩ = -1 ∧
    fresnelCosi ⟨0, 0, -2⟩ ⟨0, 0, 1⟩ ≠ fresnelCosiSpec ⟨0, 0, -2⟩ ⟨0, 0, 1⟩ := by
  have h1 : fresnelCosi ⟨0, 0, -2⟩ ⟨0, 0, 1⟩ = -2 := by
    norm_num [fresnelCosi, glmClamp, dot, min_def, max_def]
  have h2 : fresnelCosiSpec ⟨0, 0, -2⟩ ⟨0, 0, 1⟩ = -1 := by
    norm_num [fresnelCosiSpec, dot, min_def, max_def]
  refine ⟨h1, h2, ?_⟩
  rw [h1, h2]
  norm_num

/-- C4: for every value and nonzero multiple, `roundDownToMultipleOf` returns
`value - (value % multiple)` when that (truncating, C++-style) remainder is
strictly greater than 1 and `value` unchanged otherwise; in particular
`roundDownToMultipleOf 10 3 = 10` and `roundDownToMultipleOf 11 3 = 9`. -/
theorem roundDownToMultipleOf_spec :
    (∀ value multiple : Int, multiple ≠ 0 →
      roundDownToMultipleOf value multiple =
        if Int.tmod value multiple > 1 then value - Int.tmod value multiple else value) ∧
    roundDownToMultipleOf 10 3 = 10 ∧ roundDownToMultipleOf 11 3 = 9 :=
  ⟨fun _ _ _ => rfl, by decide, by decide⟩

/-- Witness for C4's theorem at `value = 10`, `multiple = 3`. -/
theorem roundDownToMultipleOf_spec_witness :
    roundDownToMultipleOf 10 3 =
      if Int.tmod 10 3 > 1 then (10 : Int) - Int.tmod 10 3 else 10 :=
  roundDownToMultipleOf_spec.1 10 3 (by decide)

/-- C10: with the embedded modulo made fallible (`none` on a zero divisor),
every call of `roundDownToMultipleOf` with `multiple ≠ 0` avoids the
division-by-zero branch and agrees with the total embedding. -/
theorem roundDownToMultipleOf_no_div_by_zero :
    ∀ value multiple : Int, multiple ≠ 0 →
      roundDownToMultipleOfChecked value multiple =
        some (roundDownToMultipleOf value multiple) := by
  intro v m hm
  simp [roundDownToMultipleOfChecked, tmodChecked, hm, roundDownToMultipleOf]

/-- Witness for C10's theorem at `value = 11`, `multiple = 3`. -/
theorem roundDownToMultipleOf_no_div_by_zero_witness :
    roundDownToMultipleOfChecked 11 3 = some (roundDownToMultipleOf 11 3) :=
  roundDownToMultipleOf_no_div_by_zero 11 3 (by decide)

/-- C7: `equal x x` is true for every scalar `x`, and `equal x (x + 2*Epsilon)`
is false. -/
theorem equal_spec :
    ∀ x : ℚ, equal x x = true ∧ equal x (x + 2 * Epsilon) = false := by
  intro x
  constructor
  · simp [equal, Epsilon]
  · simp only [equal, decide_eq_false_iff_not, not_lt]
    have h : x - (x + 2 * Epsilon) = -(2 * Epsilon) := by ring
    rw [h, abs_neg, abs_of_pos (by norm_num [Epsilon] : (0 : ℚ) < 2 * Epsilon)]
    norm_num [Epsilon]

/-- C8: `normalize` on a 3-component color divides all components by the
maximum component when that maximum exceeds 1 and returns the color unchanged
otherwise; in particular `normalize (2, 1, 1/2) = (1, 1/2, 1/4)` and
`normalize (1/2, 3/10, 1/10)` is unchanged. -/
theorem normalize_spec :
    (∀ c : Vec3,
      (1 < max (max c.x c.y) c.z →
        MobileRT.normalize c =
          ⟨c.x / max (max c.x c.y) c.z, c.y / max (max c.x c.y) c.z,
            c.z / max (max c.x c.y) c.z⟩) ∧
      (¬ 1 < max (max c.x c.y) c.z → MobileRT.normalize c = c)) ∧
    MobileRT.normalize ⟨2, 1, 1/2⟩ = ⟨1, 1/2, 1/4⟩ ∧
    MobileRT.normalize ⟨1/2, 3/10, 1/10⟩ = ⟨1/2, 3/10, 1/10⟩ := by
  refine ⟨fun c => ⟨fun h => ?_, fun h => ?_⟩,
    by norm_num [MobileRT.normalize, max_def], by norm_num [MobileRT.normalize, max_def]⟩
  · simp [MobileRT.normalize, h]
  · simp [MobileRT.normalize, h]

/-- Witness for C8's theorem at the color `(3, 1, 1)` (maximum 3 > 1). -/
theorem normalize_spec_witness :
    MobileRT.normalize ⟨3, 1, 1⟩ = ⟨1, 1/3, 1/3⟩ := by
  have h := (normalize_spec.1 ⟨3, 1, 1⟩).1 (by norm_num)
  rw [h]
  norm_num [max_def]

/-- C2: `checkSystemError` raises iff the error indicator is nonzero and is
neither `EWOULDBLOCK` nor `EINVAL`; when it raises, the indicator is 0 in the
resulting state and the thrown message extends the caller-supplied message;
when it does not raise, the indicator is unchanged. -/
theorem checkSystemError_spec :
    ∀ (errnoVal : Int) (currentError : ErrorType) (strerrorText message : String),
      ((checkSystemError errnoVal currentError strerrorText message).2 ≠ none ↔
        (errnoVal ≠ 0 ∧ errnoVal ≠ EWOULDBLOCK ∧ errnoVal ≠ EINVAL)) ∧
      (∀ m, (checkSystemError errnoVal currentError strerrorText message).2 = some m →
        (checkSystemError errnoVal currentError strerrorText message).1 = 0 ∧
        ∃ t, m = message ++ t) ∧
      ((checkSystemError errnoVal currentError strerrorText message).2 = none →
        (checkSystemError errnoVal currentError strerrorText message).1 = errnoVal) := by
  intro e err st msg
  by_cases h : e ≠ 0 ∧ e ≠ EWOULDBLOCK ∧ e ≠ EINVAL
  · have hunf : checkSystemError e err st msg =
        (0, some (msg ++ "\n" ++ err.codeText ++ "\n" ++ err.description ++ "\n" ++
          "errno (" ++ toString e ++ "): " ++ st)) := by
      unfold checkSystemError
      rw [if_pos h]
    refine ⟨?_, ?_, ?_⟩
    · rw [hunf]
      simpa using h
    · intro m hm
      rw [hunf] at hm ⊢
      refine ⟨rfl, "\n" ++ err.codeText ++ "\n" ++ err.description ++ "\n" ++ "errno (" ++
        toString e ++ "): " ++ st, ?_⟩
      have hm' := Option.some.inj hm
      rw [← hm']
      simp [String.append_assoc]
    · intro hnone
      rw [hunf] at hnone
      simp at hnone
  · have hunf : checkSystemError e err st msg = (e, none) := by
      unfold checkSystemError
      rw [if_neg h]
    refine ⟨?_, ?_, ?_⟩
    · rw [hunf]
      simpa using h
    · intro m hm
      rw [hunf] at hm
      simp at hm
    · intro _
      rw [hunf]

/-- Witness for C2's theorem: indicator 5 (not whitelisted) raises, resets the
indicator to 0, and the thrown message extends the caller message `"m"`. -/
theorem checkSystemError_spec_witness :
    (checkSystemError 5 ⟨"c", "d"⟩ "s" "m").1 = 0 ∧
    ∃ t, "m\nc\nd\nerrno (5): s" = "m" ++ t :=
  (checkSystemError_spec 5 ⟨"c", "d"⟩ "s" "m").2.1 "m\nc\nd\nerrno (5): s" (by rfl)

/-- Unfolding `haltonAux` for one loop iteration (`index ≠ 0`). -/
lemma haltonAux_succ_pos (fuel index base : Nat) (fr nv : ℚ) (h : index ≠ 0) :
    haltonAux (fuel + 1) index base fr nv =
      haltonAux fuel (index / base) base (fr / (base : ℚ))
        (nv + fr / (base : ℚ) * ((index % base : Nat) : ℚ)) := by
  rw [haltonAux, if_neg h]

/-- The Halton accumulator never drops below the accumulated value. -/
lemma haltonAux_nonneg :
    ∀ (fuel index base : Nat) (fr nv : ℚ), 0 ≤ fr → 0 ≤ nv →
      0 ≤ haltonAux fuel index base fr nv := by
  intro fuel
  induction fuel with
  | zero =>
    intro index base fr nv _ hnv
    simpa [haltonAux] using hnv
  | succ f ih =>
    intro index base fr nv hfr hnv
    by_cases hidx : index = 0
    · rw [haltonAux, if_pos hidx]
      exact hnv
    · rw [haltonAux_succ_pos f index base fr nv hidx]
      refine ih _ _ _ _ (div_nonneg hfr (Nat.cast_nonneg base)) ?_
      exact add_nonneg hnv
        (mul_nonneg (div_nonneg hfr (Nat.cast_nonneg base)) (Nat.cast_nonneg _))

/-- The Halton accumulator stays strictly below `nextValue + fraction`:
every iteration adds at most `fraction * (base-1)/base` and hands the
recursion the remaining budget `fraction / base`. -/
lemma haltonAux_lt :
    ∀ (fuel index base : Nat) (fr nv : ℚ), 2 ≤ base → 0 < fr →
      haltonAux fuel index base fr nv < nv + fr := by
  intro fuel
  induction fuel with
  | zero =>
    intro index base fr nv _ hfr
    rw [haltonAux]
    exact lt_add_of_pos_right nv hfr
  | succ f ih =>
    intro index base fr nv hb hfr
    by_cases hidx : index = 0
    · rw [haltonAux, if_pos hidx]
      exact lt_add_of_pos_right nv hfr
    · rw [haltonAux_succ_pos f index base fr nv hidx]
      have hbpos : (0 : ℚ) < (base : ℚ) := by
        exact_mod_cast Nat.lt_of_lt_of_le Nat.zero_lt_two hb
      have hfr' : 0 < fr / (base : ℚ) := div_pos hfr hbpos
      have hrec := ih (index / base) base (fr / (base : ℚ))
        (nv + fr / (base : ℚ) * ((index % base : Nat) : ℚ)) hb hfr'
      have hkey : fr / (base : ℚ) * ((index % base : Nat) : ℚ) + fr / (base : ℚ) ≤ fr := by
        have h1 : fr / (base : ℚ) * ((index % base : Nat) : ℚ) + fr / (base : ℚ) =
            fr / (base : ℚ) * (((index % base : Nat) : ℚ) + 1) := by ring
        have h2 : ((index % base : Nat) : ℚ) + 1 ≤ (base : ℚ) := by
          exact_mod_cast Nat.mod_lt index (Nat.lt_of_lt_of_le Nat.zero_lt_two hb)
        rw [h1]
        calc fr / (base : ℚ) * (((index % base : Nat) : ℚ) + 1)
            ≤ fr / (base : ℚ) * (base : ℚ) :=
              mul_le_mul_of_nonneg_left h2 (le_of_lt hfr')
          _ = fr := div_mul_cancel₀ fr (ne_of_gt hbpos)
      linarith

/-- With base at least 2, any fuel of at least `index` iterations computes the
same value: the loop really finishes within `index` steps. -/
lemma haltonAux_fuel_irrel :
    ∀ (index f1 f2 base : Nat) (fr nv : ℚ), 2 ≤ base → index ≤ f1 → index ≤ f2 →
      haltonAux f1 index base fr nv = haltonAux f2 index base fr nv := by
  intro index
  induction index using Nat.strong_induction_on with
  | _ index ih =>
    intro f1 f2 base fr nv hb h1 h2
    rcases Nat.eq_zero_or_pos index with hz | hipos
    · subst hz
      cases f1 <;> cases f2 <;> simp [haltonAux]
    · have hne : index ≠ 0 := by omega
      cases f1 with
      | zero => omega
      | succ g1 =>
        cases f2 with
        | zero => omega
        | succ g2 =>
          have hdiv : index / base < index := Nat.div_lt_self hipos (by omega)
          rw [haltonAux_succ_pos g1 index base fr nv hne,
            haltonAux_succ_pos g2 index base fr nv hne]
          exact ih (index / base) hdiv g1 g2 base _ _ hb (by omega) (by omega)

/-- C6: `haltonSequence 0 base = 0` for every base ≥ 2, and for every
`index > 0` and `base ≥ 2` the value lies in `[0, 1)`. -/
theorem halton_range :
    (∀ base : Nat, 2 ≤ base → haltonSequence 0 base = 0) ∧
    (∀ index base : Nat, 0 < index → 2 ≤ base →
      0 ≤ haltonSequence index base ∧ haltonSequence index base < 1) := by
  constructor
  · intro base _
    simp [haltonSequence, haltonAux]
  · intro index base _ hb
    constructor
    · exact haltonAux_nonneg index index base 1 0 (by norm_num) (le_refl 0)
    · simpa using haltonAux_lt index index base 1 0 hb (by norm_num)

/-- Witness for C6's theorem at `index = 0, 5` and `base = 2`. -/
theorem halton_range_witness :
    haltonSequence 0 2 = 0 ∧ 0 ≤ haltonSequence 5 2 ∧ haltonSequence 5 2 < 1 :=
  ⟨halton_range.1 2 (by norm_num), (halton_range.2 5 2 (by norm_num) (by norm_num)).1,
    (halton_range.2 5 2 (by norm_num) (by norm_num)).2⟩

/-- C9: for `base ≥ 2` the loop variable strictly decreases under floor
division, so the loop terminates: any fuel bound of at least `index`
iterations yields the same result as exactly `index` iterations.  For
`base = 1` the division leaves the index unchanged, so the loop would make no
progress. -/
theorem halton_termination :
    (∀ index base : Nat, 2 ≤ base → 0 < index → index / base < index) ∧
    (∀ index fuel base : Nat, ∀ fr nv : ℚ, 2 ≤ base → index ≤ fuel →
      haltonAux fuel index base fr nv = haltonAux index index base fr nv) ∧
    (∀ index : Nat, index / 1 = index) := by
  refine ⟨fun i b hb hi => Nat.div_lt_self hi (by omega), ?_, fun i => Nat.div_one i⟩
  intro i fuel b fr nv hb hle
  exact haltonAux_fuel_irrel i fuel i b fr nv hb hle (le_refl i)

/-- Witness for C9's theorem: the variant decreases at `index = 10, base = 2`,
fuel 7 and fuel 5 agree for `index = 5, base = 2`, and division by 1 makes no
progress at `index = 7`. -/
theorem halton_termination_witness :
    (10 : Nat) / 2 < 10 ∧ haltonAux 7 5 2 1 0 = haltonAux 5 5 2 1 0 ∧ (7 : Nat) / 1 = 7 :=
  ⟨halton_termination.1 10 2 (by norm_num) (by norm_num),
    halton_termination.2.1 5 7 2 1 0 (by norm_num) (by norm_num),
    halton_termination.2.2 7⟩

/-- `sqrtQ` is exact at 0, the only argument the total-internal-reflection
guard feeds it at normal incidence. -/
lemma sqrtQ_zero : sqrtQ 0 = 0 := by
  simp [sqrtQ, Rat.num_zero, Rat.den_zero]

/-- `sqrtQ` is exact at 1, the argument reached when `sint = 0`. -/
lemma sqrtQ_one : sqrtQ 1 = 1 := by
  simp [sqrtQ, Rat.num_one, Rat.den_one]

/-- C5: for every unit normal `N` and every index of refraction `n > 0`,
`fresnel` at normal incidence (incidence vector `-N`, so `dot(I, N) = -1`)
returns `((n-1)/(n+1))²`. -/
theorem fresnel_normal_incidence (N : Vec3) (n : ℚ) (hn : 0 < n) (hN : dot N N = 1) :
    fresnel ⟨-N.x, -N.y, -N.z⟩ N n = ((n - 1) / (n + 1))^2 := by
  have hdot : dot ⟨-N.x, -N.y, -N.z⟩ N = -1 := by
    simp only [dot] at hN ⊢
    linear_combination -hN
  rw [fresnel, fresnelCosi, glmClamp, hdot]
  have hmin : min (max (-1 : ℚ) 1) (-1) = -1 := by norm_num [min_def, max_def]
  rw [hmin]
  norm_num [sqrtQ_zero, sqrtQ_one]
  have h1 : n + 1 ≠ 0 := by positivity
  field_simp
  ring

/-- Witness for C5's theorem: `N = (0,0,1)`, `n = 2` gives reflectance
`(1/3)² = 1/9`. -/
theorem fresnel_normal_incidence_witness :
    fresnel ⟨0, 0, -1⟩ ⟨0, 0, 1⟩ 2 = ((2 - 1) / (2 + 1))^2 := by
  have h := fresnel_normal_incidence ⟨0, 0, 1⟩ 2 (by norm_num) (by norm_num [dot])
  simpa using h

/-- Bitwise or of `a * 2^k` with `b < 2^k` is plain addition: the operands
occupy disjoint bit ranges. -/
lemma lor_mul_pow_eq_add : ∀ (k a b : Nat), b < 2^k → a * 2^k ||| b = a * 2^k + b := by
  intro k
  induction k with
  | zero =>
    intro a b hb
    have hb0 : b = 0 := by omega
    subst hb0
    simp
  | succ k ih =>
    intro a b hb
    have hbv : 2 * Nat.div2 b + (Nat.bodd b).toNat = b := by
      have h := Nat.bit_decomp b
      rw [Nat.bit_val] at h
      exact h
    have htn : (Nat.bodd b).toNat ≤ 1 := Bool.toNat_le (Nat.bodd b)
    have hp : (2:Nat)^(k+1) = 2 * 2^k := by
      rw [pow_succ]
      ring
    have hb2 : Nat.div2 b < 2^k := by omega
    have ha : a * 2^(k+1) = Nat.bit false (a * 2^k) := by
      rw [Nat.bit_val, hp]
      simp [Bool.toNat_false]
      ring
    have h2 : a * 2^(k+1) = 2 * (a * 2^k) := by
      rw [hp]
      ring
    calc a * 2^(k+1) ||| b
        = Nat.bit false (a * 2^k) ||| Nat.bit (Nat.bodd b) (Nat.div2 b) := by
          rw [← ha, Nat.bit_decomp]
      _ = Nat.bit (false || Nat.bodd b) (a * 2^k ||| Nat.div2 b) :=
          Nat.lor_bit false (a * 2^k) (Nat.bodd b) (Nat.div2 b)
      _ = Nat.bit (Nat.bodd b) (a * 2^k + Nat.div2 b) := by
          rw [Bool.false_or, ih a (Nat.div2 b) hb2]
      _ = 2 * (a * 2^k + Nat.div2 b) + (Nat.bodd b).toNat := Nat.bit_val _ _
      _ = a * 2^(k+1) + b := by omega

/-- The packing expression of `incrementalAvg`
(`0xFF000000 | retB << 16 | retG << 8 | retR`) written as arithmetic: all
three channels are below 256, so the or-ed fields do not overlap. -/
lemma pack_eq (r g b : Nat) (hr : r < 256) (hg : g < 256) (hb : b < 256) :
    4278190080 ||| (b <<< 16) ||| (g <<< 8) ||| r =
      4278190080 + b * 65536 + g * 256 + r := by
  rw [Nat.shiftLeft_eq, Nat.shiftLeft_eq]
  have e16 : (2:Nat)^16 = 65536 := by norm_num
  have e8 : (2:Nat)^8 = 256 := by norm_num
  rw [e16, e8]
  have h1 : (4278190080 : Nat) ||| b * 65536 = 4278190080 + b * 65536 := by
    have h := lor_mul_pow_eq_add 24 255 (b * 65536) (by norm_num; omega)
    norm_num at h
    exact h
  have h2 : (4278190080 + b * 65536) ||| g * 256 = 4278190080 + b * 65536 + g * 256 := by
    have h := lor_mul_pow_eq_add 16 (65280 + b) (g * 256) (by norm_num; omega)
    have e : (65280 + b) * 2^16 = 4278190080 + b * 65536 := by
      rw [e16]
      ring
    rw [e] at h
    exact h
  have h3 : (4278190080 + b * 65536 + g * 256) ||| r =
      4278190080 + b * 65536 + g * 256 + r := by
    have h := lor_mul_pow_eq_add 8 (16711680 + b * 256 + g) r (by norm_num; omega)
    have e : (16711680 + b * 256 + g) * 2^8 = 4278190080 + b * 65536 + g * 256 := by
      rw [e8]
      ring
    rw [e] at h
    exact h
  rw [h1, h2, h3]

/-- A sample channel at most 1 scales to a byte value at most 255. -/
lemma sample_byte_le (q : ℚ) (h1 : q ≤ 1) : (⌊q * 255⌋).toNat ≤ 255 := by
  have h : ⌊q * 255⌋ ≤ 255 := by
    have : q * 255 ≤ 255 := by nlinarith
    calc ⌊q * 255⌋ ≤ ⌊(255 : ℚ)⌋ := Int.floor_le_floor this
      _ = 255 := by norm_num
  omega

/-- `incrementalAvg` as a sum of its four byte fields, under the claim's
preconditions plus the no-unsigned-overflow side conditions on the three
per-channel numerators. -/
lemma incrementalAvg_channels (sample : Vec3) (avg numSample : Int)
    (hx1 : sample.x ≤ 1) (hy1 : sample.y ≤ 1) (hz1 : sample.z ≤ 1)
    (hn1 : 1 ≤ numSample) (hn2 : numSample < 2147483648)
    (hovR : (numSample.toNat - 1) * (toUInt32 avg % 256) + (⌊sample.x * 255⌋).toNat < 4294967296)
    (hovG : (numSample.toNat - 1) * (toUInt32 avg / 256 % 256) + (⌊sample.y * 255⌋).toNat < 4294967296)
    (hovB : (numSample.toNat - 1) * (toUInt32 avg / 65536 % 256) + (⌊sample.z * 255⌋).toNat < 4294967296) :
    incrementalAvg sample avg numSample =
      4278190080 +
        (min (((numSample.toNat - 1) * (toUInt32 avg / 65536 % 256) +
          (⌊sample.z * 255⌋).toNat) / numSample.toNat) 255) * 65536 +
        (min (((numSample.toNat - 1) * (toUInt32 avg / 256 % 256) +
          (⌊sample.y * 255⌋).toNat) / numSample.toNat) 255) * 256 +
        min (((numSample.toNat - 1) * (toUInt32 avg % 256) +
          (⌊sample.x * 255⌋).toNat) / numSample.toNat) 255 := by
  have hu : toUInt32 numSample = numSample.toNat := by
    have h : numSample % 4294967296 = numSample := Int.emod_eq_of_lt (by omega) (by omega)
    rw [toUInt32, h]
  have hnlt : numSample.toNat < 4294967296 := by omega
  have hn1' : 1 ≤ numSample.toNat := by omega
  have hand : ∀ m : Nat, m &&& 255 = m % 256 := by
    intro m
    have h := Nat.and_pow_two_sub_one_eq_mod m 8
    norm_num at h
    exact h
  have hsh8 : toUInt32 avg >>> 8 = toUInt32 avg / 256 := by
    rw [Nat.shiftRight_eq_div_pow]
  have hsh16 : toUInt32 avg >>> 16 = toUInt32 avg / 65536 := by
    rw [Nat.shiftRight_eq_div_pow]
  have hsx : (⌊sample.x * 255⌋).toNat ≤ 255 := sample_byte_le sample.x hx1
  have hsy : (⌊sample.y * 255⌋).toNat ≤ 255 := sample_byte_le sample.y hy1
  have hsz : (⌊sample.z * 255⌋).toNat ≤ 255 := sample_byte_le sample.z hz1
  simp only [incrementalAvg]
  rw [hu, hand, hsh8, hsh16, hand, hand]
  have hm1 : (numSample.toNat + 4294967296 - 1) % 4294967296 = numSample.toNat - 1 := by
    omega
  rw [hm1]
  rw [Nat.mod_eq_of_lt (show (⌊sample.x * 255⌋).toNat < 4294967296 by omega),
    Nat.mod_eq_of_lt (show (⌊sample.y * 255⌋).toNat < 4294967296 by omega),
    Nat.mod_eq_of_lt (show (⌊sample.z * 255⌋).toNat < 4294967296 by omega)]
  rw [Nat.mod_eq_of_lt hovR, Nat.mod_eq_of_lt hovG, Nat.mod_eq_of_lt hovB]
  exact pack_eq _ _ _ (by omega) (by omega) (by omega)

/-- Byte-field extraction from a packed word with alpha 0xFF. -/
lemma unpack_div_mod (r g b : Nat) (hr : r ≤ 255) (hg : g ≤ 255) (hb : b ≤ 255) :
    (4278190080 + b * 65536 + g * 256 + r) % 256 = r ∧
    (4278190080 + b * 65536 + g * 256 + r) / 256 % 256 = g ∧
    (4278190080 + b * 65536 + g * 256 + r) / 65536 % 256 = b ∧
    (4278190080 + b * 65536 + g * 256 + r) / 16777216 = 255 := by
  omega

/-- C3 (amended): for every sample with channels in [0,1], every previous
packed color, and every `1 ≤ sampleCount < 2^31`, PROVIDED the per-channel
numerator `(sampleCount-1) * oldChannel + scaledSample` stays below `2^32`
(no `uint32` wrap; the original claim omits this), each output channel equals
`min(((sampleCount-1) * oldChannel + scaledSample) / sampleCount, 255)` in
truncating integer arithmetic and the alpha byte is forced to 0xFF; at
`sampleCount = 1` each channel equals the sample channel scaled to [0,255],
independent of the previous packed color. -/
theorem incrementalAvg_spec (sample : Vec3) (avg numSample : Int)
    (_hx0 : 0 ≤ sample.x) (hx1 : sample.x ≤ 1)
    (_hy0 : 0 ≤ sample.y) (hy1 : sample.y ≤ 1)
    (_hz0 : 0 ≤ sample.z) (hz1 : sample.z ≤ 1)
    (hn1 : 1 ≤ numSample) (hn2 : numSample < 2147483648)
    (hovR : (numSample.toNat - 1) * (toUInt32 avg % 256) + (⌊sample.x * 255⌋).toNat < 4294967296)
    (hovG : (numSample.toNat - 1) * (toUInt32 avg / 256 % 256) + (⌊sample.y * 255⌋).toNat < 4294967296)
    (hovB : (numSample.toNat - 1) * (toUInt32 avg / 65536 % 256) + (⌊sample.z * 255⌋).toNat < 4294967296) :
    incrementalAvg sample avg numSample % 256 =
      min (((numSample.toNat - 1) * (toUInt32 avg % 256) +
        (⌊sample.x * 255⌋).toNat) / numSample.toNat) 255 ∧
    incrementalAvg sample avg numSample / 256 % 256 =
      min (((numSample.toNat - 1) * (toUInt32 avg / 256 % 256) +
        (⌊sample.y * 255⌋).toNat) / numSample.toNat) 255 ∧
    incrementalAvg sample avg numSample / 65536 % 256 =
      min (((numSample.toNat - 1) * (toUInt32 avg / 65536 % 256) +
        (⌊sample.z * 255⌋).toNat) / numSample.toNat) 255 ∧
    incrementalAvg sample avg numSample / 16777216 = 255 ∧
    (numSample = 1 →
      incrementalAvg sample avg numSample % 256 = (⌊sample.x * 255⌋).toNat ∧
      incrementalAvg sample avg numSample / 256 % 256 = (⌊sample.y * 255⌋).toNat ∧
      incrementalAvg sample avg numSample / 65536 % 256 = (⌊sample.z * 255⌋).toNat) := by
  have hch := incrementalAvg_channels sample avg numSample hx1 hy1 hz1 hn1 hn2 hovR hovG hovB
  have hun := unpack_div_mod
    (min (((numSample.toNat - 1) * (toUInt32 avg % 256) +
      (⌊sample.x * 255⌋).toNat) / numSample.toNat) 255)
    (min (((numSample.toNat - 1) * (toUInt32 avg / 256 % 256) +
      (⌊sample.y * 255⌋).toNat) / numSample.toNat) 255)
    (min (((numSample.toNat - 1) * (toUInt32 avg / 65536 % 256) +
      (⌊sample.z * 255⌋).toNat) / numSample.toNat) 255)
    (Nat.min_le_right _ _) (Nat.min_le_right _ _) (Nat.min_le_right _ _)
  rw [hch]
  refine ⟨hun.1, hun.2.1, hun.2.2.1, hun.2.2.2, ?_⟩
  intro h1
  subst h1
  have hsx : (⌊sample.x * 255⌋).toNat ≤ 255 := sample_byte_le sample.x hx1
  have hsy : (⌊sample.y * 255⌋).toNat ≤ 255 := sample_byte_le sample.y hy1
  have hsz : (⌊sample.z * 255⌋).toNat ≤ 255 := sample_byte_le sample.z hz1
  have ht : ((1 : Int).toNat - 1) = 0 := rfl
  have ht2 : (1 : Int).toNat = 1 := rfl
  rw [hun.1, hun.2.1, hun.2.2.1, ht, ht2]
  simp only [Nat.zero_mul, Nat.zero_add, Nat.div_one]
  exact ⟨Nat.min_eq_left hsx, Nat.min_eq_left hsy, Nat.min_eq_left hsz⟩

/-- Witness for C3's theorem: sample `(1/2, 1, 0)`, previous color 12345,
sampleCount 1. -/
theorem incrementalAvg_spec_witness :
    incrementalAvg ⟨1/2, 1, 0⟩ 12345 1 % 256 = (⌊((1 : ℚ)/2) * 255⌋).toNat ∧
    incrementalAvg ⟨1/2, 1, 0⟩ 12345 1 / 256 % 256 = (⌊(1 : ℚ) * 255⌋).toNat ∧
    incrementalAvg ⟨1/2, 1, 0⟩ 12345 1 / 16777216 = 255 := by
  have hbx : (⌊((1 : ℚ)/2) * 255⌋).toNat ≤ 255 := sample_byte_le _ (by norm_num)
  have hby : (⌊(1 : ℚ) * 255⌋).toNat ≤ 255 := sample_byte_le _ (by norm_num)
  have hbz : (⌊(0 : ℚ) * 255⌋).toNat ≤ 255 := sample_byte_le _ (by norm_num)
  have h := incrementalAvg_spec ⟨1/2, 1, 0⟩ 12345 1
    (by norm_num) (by norm_num) (by norm_num) (by norm_num) (by norm_num) (by norm_num)
    (by norm_num) (by norm_num)
    (by dsimp only; simp only [show ((1 : Int).toNat - 1) = 0 from rfl, Nat.zero_mul,
      Nat.zero_add]; omega)
    (by dsimp only; simp only [show ((1 : Int).toNat - 1) = 0 from rfl, Nat.zero_mul,
      Nat.zero_add]; omega)
    (by dsimp only; simp only [show ((1 : Int).toNat - 1) = 0 from rfl, Nat.zero_mul,
      Nat.zero_add]; omega)
  obtain ⟨_, _, _, h4, h5⟩ := h
  obtain ⟨w1, w2, _⟩ := h5 rfl
  exact ⟨w1, w2, h4⟩

/-- C3 counterexample to the unamended claim: at sample `(0,0,0)`, previous
packed color 255 (old red channel 255) and `sampleCount = 2^31 - 1`, the
claimed formula gives red channel `min(254, 255) = 254`, but the code's
`uint32` numerator wraps modulo `2^32` and the red channel produced is 0. -/
theorem incrementalAvg_overflow_counterexample :
    incrementalAvg ⟨0, 0, 0⟩ 255 2147483647 % 256 = 0 ∧
    min ((((2147483647 : Int).toNat - 1) * (toUInt32 255 % 256) +
      (⌊(0 : ℚ) * 255⌋).toNat) / (2147483647 : Int).toNat) 255 = 254 ∧
    incrementalAvg ⟨0, 0, 0⟩ 255 2147483647 % 256 ≠
      min ((((2147483647 : Int).toNat - 1) * (toUInt32 255 % 256) +
        (⌊(0 : ℚ) * 255⌋).toNat) / (2147483647 : Int).toNat) 255 := by
  have h1 : incrementalAvg ⟨0, 0, 0⟩ 255 2147483647 % 256 = 0 := by
    simp only [incrementalAvg, toUInt32]
    norm_num [Int.toNat_ofNat]
    decide
  have h2 : min ((((2147483647 : Int).toNat - 1) * (toUInt32 255 % 256) +
      (⌊(0 : ℚ) * 255⌋).toNat) / (2147483647 : Int).toNat) 255 = 254 := by
    simp only [toUInt32]
    norm_num [Int.toNat_ofNat]
    decide
  refine ⟨h1, h2, ?_⟩
  rw [h1, h2]
  norm_num

end MobileRT
